import Mathlib

/-!
A shallow embedding, in Lean 4, of the parts of the PrismLauncher sources relevant to
the icon-directory reconciler (`IconList`), the resource catalog (`ResourceFolderModel`)
and the Modrinth pack export pipeline (`ModrinthPackExportTask`), together with proofs
of the behavioural properties stated about them.

Strings of the C++ sources (paths, hashes, URLs, hosts) are modelled as lists of
characters (`QStr`); Qt containers (`QMap`, `QSet`) are modelled as association lists
with decidable key equality and as `Finset`s.
-/

/-- Model of `QString`: a list of characters. -/
abbrev QStr : Type := List Char

/-- Embeds a Lean string literal into the `QStr` model. -/
def qs (s : String) : QStr := s.data

/- ----------------------------------------------------------------------------
Association-list model of `QMap` (insertion replaces the binding of an existing
key, otherwise appends; lookup finds the unique binding).
---------------------------------------------------------------------------- -/

/-- `QMap::operator[] =`: replace the binding of `k` if present, otherwise append it. -/
def mapInsert {κ α : Type} [DecidableEq κ] (m : List (κ × α)) (k : κ) (v : α) :
    List (κ × α) :=
  match m with
  | [] => [(k, v)]
  | p :: rest => if p.1 = k then (k, v) :: rest else p :: mapInsert rest k v

/-- `QMap::value` / JSON-object indexing: the value bound to `k`, if any. -/
def mapLookup {κ α : Type} [DecidableEq κ] (m : List (κ × α)) (k : κ) : Option α :=
  match m with
  | [] => none
  | p :: rest => if p.1 = k then some p.2 else mapLookup rest k

/-- `QMap::contains`. -/
def mapContains {κ α : Type} [DecidableEq κ] (m : List (κ × α)) (k : κ) : Bool :=
  match m with
  | [] => false
  | p :: rest => if p.1 = k then true else mapContains rest k

/-- `QMap::keys`. -/
def mapKeys {κ α : Type} (m : List (κ × α)) : List κ := m.map (fun p => p.1)

theorem mapContains_insert {κ α : Type} [DecidableEq κ] (m : List (κ × α)) (k p : κ)
    (v : α) : mapContains (mapInsert m k v) p = (if k = p then true else mapContains m p) := by
  induction m with
  | nil => simp only [mapInsert, mapContains]
  | cons hd tl ih =>
      simp only [mapInsert]
      by_cases h1 : hd.1 = k
      · by_cases h2 : k = p <;> simp [mapContains, h1, h2]
      · simp only [if_neg h1]
        by_cases h2 : hd.1 = p
        · have h3 : ¬k = p := fun h => h1 (h2.trans h.symm)
          simp [mapContains, h2, h3]
        · by_cases h3 : k = p
          · subst h3
            simp [mapContains, h2, ih]
          · simp [mapContains, h2, h3, ih]

theorem mapContains_iff_mem_keys {κ α : Type} [DecidableEq κ] (m : List (κ × α)) (k : κ) :
    mapContains m k = true ↔ k ∈ mapKeys m := by
  induction m with
  | nil => simp [mapContains, mapKeys]
  | cons hd tl ih =>
      by_cases h : hd.1 = k
      · simp [mapContains, mapKeys, h]
      · have h' : ¬k = hd.1 := fun hh => h hh.symm
        simp [mapContains, mapKeys, h, h', ih]

/- ----------------------------------------------------------------------------
IconList::directoryChanged (src/unnamed/part_000, IconList.cpp):
    QSet<QString> toRemove = currentSet - newSet;
    QSet<QString> toAdd = newSet - currentSet;
`currentSet` is the set of file-based icon paths currently tracked, `newSet` the
set of paths produced by a fresh filesystem scan (`getIconFilePaths`).
---------------------------------------------------------------------------- -/

namespace IconList

/-- `QSet<QString> toRemove = currentSet - newSet;` in `IconList::directoryChanged`. -/
def toRemove (currentSet newSet : Finset QStr) : Finset QStr := currentSet \ newSet

/-- `QSet<QString> toAdd = newSet - currentSet;` in `IconList::directoryChanged`. -/
def toAdd (currentSet newSet : Finset QStr) : Finset QStr := newSet \ currentSet

end IconList

/-- C1: in every reconciliation run of `IconList::directoryChanged`, the computed
`toAdd` and `toRemove` sets are disjoint, and applying the additions and then the
removals to the previously tracked set yields exactly the freshly scanned set. -/
theorem directoryChanged_reconciliation (currentSet newSet : Finset QStr) :
    IconList.toAdd currentSet newSet ∩ IconList.toRemove currentSet newSet = ∅ ∧
      (currentSet ∪ IconList.toAdd currentSet newSet) \
          IconList.toRemove currentSet newSet = newSet := by
  constructor
  · ext x
    simp only [IconList.toAdd, IconList.toRemove, Finset.mem_inter, Finset.mem_sdiff,
      Finset.not_mem_empty, iff_false]
    tauto
  · ext x
    simp only [IconList.toAdd, IconList.toRemove, Finset.mem_sdiff, Finset.mem_union]
    tauto

/- ----------------------------------------------------------------------------
IconList::addPathRecursively (src/unnamed/part_000, IconList.cpp):

    bool IconList::addPathRecursively(const QString& path)
    {
        QDir dir(path);
        if (!dir.exists())
            return false;
        bool watching = m_watcher->addPath(path);
        QFileInfoList entries = dir.entryInfoList(QDir::Dirs | QDir::NoDotAndDotDot);
        for (const QFileInfo& entry : entries) {
            if (addPathRecursively(entry.absoluteFilePath())) {
                watching = true;
            }
        }
        return watching;
    }

The filesystem directory tree is modelled as a tree of nodes; each node records
its path, whether the directory exists (`dir.exists()`), and whether the external
watcher accepts it (`m_watcher->addPath(path)` returning true).
---------------------------------------------------------------------------- -/

/-- A directory node: its path, whether `dir.exists()` holds, whether
`m_watcher->addPath` succeeds on it, and its subdirectories. -/
inductive DirTree : Type where
  | node (path : QStr) (dirExists : Bool) (addOk : Bool) (children : List DirTree)

namespace IconList

mutual

/-- `IconList::addPathRecursively`. -/
def addPathRecursively : DirTree → Bool
  | DirTree.node _ dirExists addOk children =>
      if dirExists then addPathLoop children addOk else false

/-- The `for (const QFileInfo& entry : entries)` loop of `addPathRecursively`,
threading the `watching` accumulator. -/
def addPathLoop : List DirTree → Bool → Bool
  | [], watching => watching
  | c :: cs, watching =>
      addPathLoop cs (if addPathRecursively c then true else watching)

end

mutual

/-- The paths actually registered with the watcher during a run of
`addPathRecursively`: every existing directory whose `addPath` call succeeded. -/
def registeredPaths : DirTree → List QStr
  | DirTree.node p dirExists addOk children =>
      if dirExists then
        (if addOk then [p] else []) ++ registeredPathsLoop children
      else []

/-- Registered paths across a list of sibling subtrees. -/
def registeredPathsLoop : List DirTree → List QStr
  | [] => []
  | c :: cs => registeredPaths c ++ registeredPathsLoop cs

end

mutual

/-- The paths whose registration was attempted and failed during a run of
`addPathRecursively`: existing directories on which `addPath` returned false. -/
def failedPaths : DirTree → List QStr
  | DirTree.node p dirExists addOk children =>
      if dirExists then
        (if addOk then [] else [p]) ++ failedPathsLoop children
      else []

/-- Failed paths across a list of sibling subtrees. -/
def failedPathsLoop : List DirTree → List QStr
  | [] => []
  | c :: cs => failedPaths c ++ failedPathsLoop cs

end

mutual

theorem addPathRecursively_iff_registered :
    ∀ t : DirTree, addPathRecursively t = true ↔ registeredPaths t ≠ []
  | DirTree.node p dirExists addOk children => by
      cases dirExists with
      | false => simp [addPathRecursively, registeredPaths]
      | true =>
          have hl := addPathLoop_iff_registered children addOk
          cases addOk with
          | false => simpa [addPathRecursively, registeredPaths] using hl
          | true => simp [addPathRecursively, registeredPaths, hl]

theorem addPathLoop_iff_registered :
    ∀ (cs : List DirTree) (w : Bool),
      addPathLoop cs w = true ↔ (w = true ∨ registeredPathsLoop cs ≠ [])
  | [], w => by simp [addPathLoop, registeredPathsLoop]
  | c :: cs, w => by
      have hc := addPathRecursively_iff_registered c
      have hcs := addPathLoop_iff_registered cs (if addPathRecursively c then true else w)
      simp only [addPathLoop, registeredPathsLoop]
      rw [hcs]
      cases hr : addPathRecursively c with
      | false =>
          have : registeredPaths c = [] := by
            by_contra hne
            exact absurd (hc.mpr hne) (by simp [hr])
          simp [this]
      | true =>
          have : registeredPaths c ≠ [] := hc.mp hr
          simp [this]

end

end IconList

theorem mem_registeredPathsLoop (cs : List DirTree) (c : DirTree) (x : QStr)
    (hc : c ∈ cs) (hx : x ∈ IconList.registeredPaths c) :
    x ∈ IconList.registeredPathsLoop cs := by
  induction cs with
  | nil => cases hc
  | cons hd tl ih =>
      rcases List.mem_cons.mp hc with h | h
      · subst h
        exact List.mem_append.mpr (Or.inl hx)
      · exact List.mem_append.mpr (Or.inr (ih h))

/-- A run of `IconList::addPathRecursively` on a root that exists and registers
successfully, with a single existing subdirectory whose registration fails. -/
def cexWatchTree : DirTree :=
  DirTree.node (qs "icons") true true [DirTree.node (qs "icons/sub") true false []]

/-- C2, counterexample: in this run one path (`icons/sub`) fails to register —
it is attempted and not registered — yet `addPathRecursively` reports overall
success, refuting "the overall watch operation reports success if and only if
every path was registered successfully". -/
theorem addPathRecursively_success_despite_failure :
    IconList.addPathRecursively cexWatchTree = true ∧
      IconList.failedPaths cexWatchTree = [qs "icons/sub"] ∧
      IconList.registeredPaths cexWatchTree = [qs "icons"] := by
  decide

/-- C2, amended: a failed registration of one path does not prevent the
registration of its sibling paths (every path registered inside any subtree is
registered by the run on the parent, whatever the other flags are), and the
overall watch operation reports success if and only if at least one path was
registered successfully. -/
theorem addPathRecursively_amended (p : QStr) (ok : Bool) (ch : List DirTree)
    (c : DirTree) (x : QStr) (t : DirTree)
    (hc : c ∈ ch) (hx : x ∈ IconList.registeredPaths c) :
    x ∈ IconList.registeredPaths (DirTree.node p true ok ch) ∧
      (IconList.addPathRecursively t = true ↔ IconList.registeredPaths t ≠ []) := by
  constructor
  · simp only [IconList.registeredPaths, if_true]
    exact List.mem_append.mpr (Or.inr (mem_registeredPathsLoop ch c x hc hx))
  · exact IconList.addPathRecursively_iff_registered t

/-- C2, witness: the amended statement applied to a concrete run where the root
itself fails to register but its subdirectory succeeds. -/
theorem addPathRecursively_amended_witness :
    qs "icons/a" ∈ IconList.registeredPaths
        (DirTree.node (qs "icons") true false [DirTree.node (qs "icons/a") true true []]) ∧
      (IconList.addPathRecursively (DirTree.node (qs "icons") true false []) = true ↔
        IconList.registeredPaths (DirTree.node (qs "icons") true false []) ≠ []) :=
  addPathRecursively_amended (qs "icons") false [DirTree.node (qs "icons/a") true true []]
    (DirTree.node (qs "icons/a") true true []) (qs "icons/a")
    (DirTree.node (qs "icons") true false []) (by simp) (by decide)

/- ----------------------------------------------------------------------------
ResourceFolderModel (src/unnamed/part_000 contains only the header,
ResourceFolderModel.h; the member-function bodies are not under src/). The
state carried by the header's data members:

    Task::Ptr m_current_update_task = nullptr;
    QMap<int, Task::Ptr> m_active_parse_tasks;
    QList<Resource::Ptr> m_resources;
    std::atomic<int> m_next_resolution_ticket = 0;
---------------------------------------------------------------------------- -/

/-- Parse state of a resource (spec §3: {Unparsed, Parsing(ticket), Parsed, Failed}). -/
inductive ParseState : Type where
  | unparsed
  | parsing (ticket : Nat)
  | parsed
  | failed
deriving DecidableEq

/-- A catalog resource: its stable id, enabled flag and parse state. -/
structure CatResource : Type where
  id : QStr
  enabled : Bool
  parseState : ParseState
deriving DecidableEq

/-- The mutable state of a `ResourceFolderModel`: the coarse update task in
flight (if any), the active parse-task map keyed by ticket, the resource list
and the next resolution ticket. -/
structure CatalogState : Type where
  current_update_task : Option Nat
  active_parse_tasks : List (Nat × QStr)
  resources : List CatResource
  next_resolution_ticket : Nat
deriving DecidableEq

namespace ResourceFolderModel

/-- Modelled from the spec: `ResourceFolderModel::update` (its body is not under
src/; the header declares it as "Creates a new update task and start it. Returns
false if no update was done, like when an update is already underway", and spec
§4.2 says: "if a coarse update task is already in flight, returns no-op (at most
one concurrent coarse update). Otherwise starts a task").  Returns whether an
update was started, together with the successor state. -/
def update (s : CatalogState) (newTaskId : Nat) : Bool × CatalogState :=
  match s.current_update_task with
  | some _ => (false, s)
  | none => (true, { s with current_update_task := some newTaskId })

/-- Marks the resource with the given id as parsed, leaving every other
resource untouched. -/
def markParsed (rs : List CatResource) (rid : QStr) : List CatResource :=
  rs.map (fun r => if r.id = rid then { r with parseState := ParseState.parsed } else r)

/-- Modelled from the spec: `ResourceFolderModel::onParseSucceeded` (its body is
not under src/; the header declares it as "Called when the parse task with the
given ticket is successful", and spec §4.2 says: "on completion the callback
receives the ticket and a resource id. If the ticket is absent from the
active-task map (already completed, cancelled, or resource removed in the
meantime) the callback is discarded"). When the ticket is live, the resource is
marked parsed and the ticket is retired from the active map. -/
def onParseSucceeded (s : CatalogState) (ticket : Nat) (rid : QStr) : CatalogState :=
  match mapLookup s.active_parse_tasks ticket with
  | none => s
  | some _ =>
      { s with
        resources := markParsed s.resources rid,
        active_parse_tasks := s.active_parse_tasks.filter (fun pr => decide (pr.1 ≠ ticket)) }

end ResourceFolderModel

/-- C3: a call to `update()` while an update task is already in flight returns
false and leaves the catalog state unchanged — in particular no second update
task is started. -/
theorem update_noop_when_in_flight (s : CatalogState) (t newTaskId : Nat)
    (h : s.current_update_task = some t) :
    ResourceFolderModel.update s newTaskId = (false, s) := by
  simp [ResourceFolderModel.update, h]

/-- C3, witness: `update()` on a concrete state with task 7 in flight. -/
theorem update_noop_when_in_flight_witness :
    ResourceFolderModel.update ⟨some 7, [], [], 0⟩ 8 = (false, ⟨some 7, [], [], 0⟩) :=
  update_noop_when_in_flight ⟨some 7, [], [], 0⟩ 7 8 rfl

/-- C4: a parse-task completion callback whose ticket is not in the catalog's
active-task map is discarded: the catalog state — in particular every resource,
including any removed in the meantime — is left exactly as it was, so a deleted
resource is never resurrected or re-inserted. -/
theorem onParseSucceeded_stale_ticket_noop (s : CatalogState) (ticket : Nat) (rid : QStr)
    (h : mapLookup s.active_parse_tasks ticket = none) :
    ResourceFolderModel.onParseSucceeded s ticket rid = s := by
  simp [ResourceFolderModel.onParseSucceeded, h]

/-- C4, witness: a stale completion (ticket 3, absent from the active map, for a
resource id that was removed from the catalog) leaves a concrete catalog
unchanged. -/
theorem onParseSucceeded_stale_ticket_noop_witness :
    ResourceFolderModel.onParseSucceeded
        ⟨none, [(5, qs "modB")], [⟨qs "modB", true, ParseState.unparsed⟩], 6⟩ 3 (qs "modA") =
      ⟨none, [(5, qs "modB")], [⟨qs "modB", true, ParseState.unparsed⟩], 6⟩ :=
  onParseSucceeded_stale_ticket_noop
    ⟨none, [(5, qs "modB")], [⟨qs "modB", true, ParseState.unparsed⟩], 6⟩ 3 (qs "modA")
    (by decide)

/- ----------------------------------------------------------------------------
ModrinthPackExportTask (src/launcher/modplatform/modrinth/ModrinthPackExportTask.cpp).
External collaborators are passed in as parameters: the hash functions
(`Hashing::hash`, one per algorithm), the file system (`QFile::open`/`readAll`,
collapsed into an optional (bytes, size) result covering both the open failure
and the read error), the allow-list (`BuildConfig.MODRINTH_MRPACK_HOSTS`) and
the export filter predicate.
---------------------------------------------------------------------------- -/

/-- `Metadata::ModSide` of a resource's metadata. -/
inductive ModSide : Type where
  | clientSide
  | serverSide
  | universalSide
deriving DecidableEq

/-- `ModrinthPackExportTask::ResolvedFile`: {sha1, sha512, url, size, side}. -/
structure ResolvedFile : Type where
  sha1 : QStr
  sha512 : QStr
  url : QStr
  size : Int
  side : ModSide
deriving DecidableEq

/-- The metadata carried by a tracked resource (`resource->metadata()`): its
remote URL (emptiness, host and encoded form), declared hash with its
algorithm name, and declared side. -/
structure RMetadata : Type where
  urlEmpty : Bool
  urlHost : QStr
  urlEncoded : QStr
  hash_format : QStr
  hash : QStr
  side : ModSide
deriving DecidableEq

/-- A tracked resource as seen by `collectHashes`: its game-root-relative path
(`gameRoot.relativeFilePath(fileInfo.absoluteFilePath())`) and optional metadata. -/
structure ResourceIn : Type where
  relativePath : QStr
  metadata : Option RMetadata
deriving DecidableEq

namespace ModrinthPackExportTask

/-- The body of the per-resource loop of `ModrinthPackExportTask::collectHashes`
(the first loop, over `model->allResources()`): skip resources without metadata,
with an empty URL or a host off the allow-list, or excluded by the filter;
otherwise reuse the declared hash for its declared algorithm, read the file
(skipping it on open/read failure), compute whichever hashes are still empty,
and record the resolved file under the resource's relative path. -/
def resolveLocalOne (allowHosts : List QStr) (F : QStr → Bool)
    (hashSha1 hashSha512 : List Nat → QStr) (fsRead : QStr → Option (List Nat × Int))
    (resolved : List (QStr × ResolvedFile)) (r : ResourceIn) : List (QStr × ResolvedFile) :=
  match r.metadata with
  | none => resolved
  | some md =>
      if md.urlEmpty || !(allowHosts.contains md.urlHost) then resolved
      else if F r.relativePath then resolved
      else
        let sha1 := if md.hash_format = qs "sha1" then md.hash else []
        let sha512 := if md.hash_format = qs "sha512" then md.hash else []
        match fsRead r.relativePath with
        | none => resolved
        | some (data, size) =>
            let sha1o := if sha1.isEmpty then hashSha1 data else sha1
            let sha512o := if sha512.isEmpty then hashSha512 data else sha512
            mapInsert resolved r.relativePath
              ⟨sha1o, sha512o, md.urlEncoded, size, md.side⟩

/-- The first loop of `ModrinthPackExportTask::collectHashes` over the list of
tracked resources, accumulating into `resolvedFiles`. -/
def collectLocal (allowHosts : List QStr) (F : QStr → Bool)
    (hashSha1 hashSha512 : List Nat → QStr) (fsRead : QStr → Option (List Nat × Int))
    (resolved : List (QStr × ResolvedFile)) (rs : List ResourceIn) :
    List (QStr × ResolvedFile) :=
  rs.foldl (resolveLocalOne allowHosts F hashSha1 hashSha512 fsRead) resolved

end ModrinthPackExportTask

/-- C7: in `collectHashes`, a tracked resource with allow-listed remote metadata
has its declared hash reused for the algorithm it declares while the other
algorithm's hash is computed from the file's bytes (`rA` declares sha1, `rB`
declares sha512), and such a resource whose file cannot be opened or fully read
(`rBad`) is skipped: it contributes no resolved-file entry and the loop carries
on with the remaining resources unchanged. -/
theorem collectHashes_local_metadata (allowHosts : List QStr) (F : QStr → Bool)
    (hashSha1 hashSha512 : List Nat → QStr) (fsRead : QStr → Option (List Nat × Int))
    (resolved : List (QStr × ResolvedFile)) (rest : List ResourceIn)
    (rA rB rBad : ResourceIn) (mdA mdB mdBad : RMetadata)
    (dataA dataB : List Nat) (sizeA sizeB : Int)
    (hmdA : rA.metadata = some mdA) (hurlA : mdA.urlEmpty = false)
    (hhostA : allowHosts.contains mdA.urlHost = true) (hfilA : F rA.relativePath = false)
    (hfmtA : mdA.hash_format = qs "sha1") (hneA : mdA.hash ≠ [])
    (hfsA : fsRead rA.relativePath = some (dataA, sizeA))
    (hmdB : rB.metadata = some mdB) (hurlB : mdB.urlEmpty = false)
    (hhostB : allowHosts.contains mdB.urlHost = true) (hfilB : F rB.relativePath = false)
    (hfmtB : mdB.hash_format = qs "sha512") (hneB : mdB.hash ≠ [])
    (hfsB : fsRead rB.relativePath = some (dataB, sizeB))
    (hmdBad : rBad.metadata = some mdBad) (hurlBad : mdBad.urlEmpty = false)
    (hhostBad : allowHosts.contains mdBad.urlHost = true)
    (hfilBad : F rBad.relativePath = false)
    (hfsBad : fsRead rBad.relativePath = none) :
    ModrinthPackExportTask.resolveLocalOne allowHosts F hashSha1 hashSha512 fsRead
        resolved rA =
      mapInsert resolved rA.relativePath
        ⟨mdA.hash, hashSha512 dataA, mdA.urlEncoded, sizeA, mdA.side⟩ ∧
    ModrinthPackExportTask.resolveLocalOne allowHosts F hashSha1 hashSha512 fsRead
        resolved rB =
      mapInsert resolved rB.relativePath
        ⟨hashSha1 dataB, mdB.hash, mdB.urlEncoded, sizeB, mdB.side⟩ ∧
    ModrinthPackExportTask.resolveLocalOne allowHosts F hashSha1 hashSha512 fsRead
        resolved rBad = resolved ∧
    ModrinthPackExportTask.collectLocal allowHosts F hashSha1 hashSha512 fsRead
        resolved (rBad :: rest) =
      ModrinthPackExportTask.collectLocal allowHosts F hashSha1 hashSha512 fsRead
        resolved rest := by
  have hskip :
      ModrinthPackExportTask.resolveLocalOne allowHosts F hashSha1 hashSha512 fsRead
        resolved rBad = resolved := by
    simp [ModrinthPackExportTask.resolveLocalOne, hmdBad, hurlBad, hhostBad, hfilBad, hfsBad]
  refine ⟨?_, ?_, hskip, ?_⟩
  · have hnot512 : ¬mdA.hash_format = qs "sha512" := by
      rw [hfmtA]; decide
    have hd : ¬qs "sha1" = qs "sha512" := by decide
    have hmemA : mdA.urlHost ∈ allowHosts := by simpa using hhostA
    have hne' : mdA.hash.isEmpty = false := by
      cases hh : mdA.hash with
      | nil => exact absurd hh hneA
      | cons a as => rfl
    simp [ModrinthPackExportTask.resolveLocalOne, hmdA, hurlA, hmemA, hfilA, hfsA,
      hfmtA, hnot512, hd, hne']
  · have hnot1 : ¬mdB.hash_format = qs "sha1" := by
      rw [hfmtB]; decide
    have hd : ¬qs "sha512" = qs "sha1" := by decide
    have hmemB : mdB.urlHost ∈ allowHosts := by simpa using hhostB
    have hne' : mdB.hash.isEmpty = false := by
      cases hh : mdB.hash with
      | nil => exact absurd hh hneB
      | cons a as => rfl
    simp [ModrinthPackExportTask.resolveLocalOne, hmdB, hurlB, hmemB, hfilB, hfsB,
      hfmtB, hnot1, hd, hne']
  · simp [ModrinthPackExportTask.collectLocal, hskip]

/-- The file system used by the concrete `collectHashes` witness: `mods/a.jar`
and `mods/b.jar` are readable, `mods/c.jar` cannot be opened. -/
def witFs (p : QStr) : Option (List Nat × Int) :=
  if p = qs "mods/a.jar" then some ([1, 2], 10)
  else if p = qs "mods/b.jar" then some ([3], 4)
  else none

/-- C7, witness: the theorem applied to three concrete resources (declared sha1,
declared sha512, unreadable file) over a one-host allow-list. -/
theorem collectHashes_local_metadata_witness :
    ModrinthPackExportTask.resolveLocalOne [qs "cdn.modrinth.com"] (fun _ => false)
        (fun _ => qs "H1") (fun _ => qs "H5") witFs []
        ⟨qs "mods/a.jar", some ⟨false, qs "cdn.modrinth.com", qs "https://cdn.modrinth.com/a",
          qs "sha1", qs "DA", ModSide.universalSide⟩⟩ =
      mapInsert [] (qs "mods/a.jar")
        ⟨qs "DA", qs "H5", qs "https://cdn.modrinth.com/a", 10, ModSide.universalSide⟩ ∧
    ModrinthPackExportTask.resolveLocalOne [qs "cdn.modrinth.com"] (fun _ => false)
        (fun _ => qs "H1") (fun _ => qs "H5") witFs []
        ⟨qs "mods/b.jar", some ⟨false, qs "cdn.modrinth.com", qs "https://cdn.modrinth.com/b",
          qs "sha512", qs "DB", ModSide.clientSide⟩⟩ =
      mapInsert [] (qs "mods/b.jar")
        ⟨qs "H1", qs "DB", qs "https://cdn.modrinth.com/b", 4, ModSide.clientSide⟩ ∧
    ModrinthPackExportTask.resolveLocalOne [qs "cdn.modrinth.com"] (fun _ => false)
        (fun _ => qs "H1") (fun _ => qs "H5") witFs []
        ⟨qs "mods/c.jar", some ⟨false, qs "cdn.modrinth.com", qs "https://cdn.modrinth.com/c",
          qs "sha1", qs "DC", ModSide.universalSide⟩⟩ = [] ∧
    ModrinthPackExportTask.collectLocal [qs "cdn.modrinth.com"] (fun _ => false)
        (fun _ => qs "H1") (fun _ => qs "H5") witFs []
        (⟨qs "mods/c.jar", some ⟨false, qs "cdn.modrinth.com", qs "https://cdn.modrinth.com/c",
          qs "sha1", qs "DC", ModSide.universalSide⟩⟩ :: []) =
      ModrinthPackExportTask.collectLocal [qs "cdn.modrinth.com"] (fun _ => false)
        (fun _ => qs "H1") (fun _ => qs "H5") witFs [] [] :=
  collectHashes_local_metadata [qs "cdn.modrinth.com"] (fun _ => false)
    (fun _ => qs "H1") (fun _ => qs "H5") witFs [] []
    ⟨qs "mods/a.jar", some ⟨false, qs "cdn.modrinth.com", qs "https://cdn.modrinth.com/a",
      qs "sha1", qs "DA", ModSide.universalSide⟩⟩
    ⟨qs "mods/b.jar", some ⟨false, qs "cdn.modrinth.com", qs "https://cdn.modrinth.com/b",
      qs "sha512", qs "DB", ModSide.clientSide⟩⟩
    ⟨qs "mods/c.jar", some ⟨false, qs "cdn.modrinth.com", qs "https://cdn.modrinth.com/c",
      qs "sha1", qs "DC", ModSide.universalSide⟩⟩
    ⟨false, qs "cdn.modrinth.com", qs "https://cdn.modrinth.com/a", qs "sha1", qs "DA",
      ModSide.universalSide⟩
    ⟨false, qs "cdn.modrinth.com", qs "https://cdn.modrinth.com/b", qs "sha512", qs "DB",
      ModSide.clientSide⟩
    ⟨false, qs "cdn.modrinth.com", qs "https://cdn.modrinth.com/c", qs "sha1", qs "DC",
      ModSide.universalSide⟩
    [1, 2] [3] 10 4
    rfl rfl (by decide) rfl rfl (by decide) (by decide)
    rfl rfl (by decide) rfl rfl (by decide) (by decide)
    rfl rfl (by decide) rfl (by decide)

namespace ModrinthPackExportTask

/-- The action taken by `ModrinthPackExportTask::makeApiRequest`: either proceed
directly to `buildZip`, or issue one batched remote request for the staged
sha512 hashes (`api.currentVersions(pendingHashes.values(), "sha512", ...)`). -/
inductive ExportStep : Type where
  | buildArchive
  | remoteRequest (hashes : List QStr)
deriving DecidableEq

/-- `ModrinthPackExportTask::makeApiRequest`: if `pendingHashes` is empty, call
`buildZip()`; otherwise start the batched version-lookup request over the values
of `pendingHashes`. -/
def makeApiRequest (pendingHashes : List (QStr × QStr)) : ExportStep :=
  if pendingHashes.isEmpty then ExportStep.buildArchive
  else ExportStep.remoteRequest (pendingHashes.map (fun pr => pr.2))

end ModrinthPackExportTask

/-- C5: after the hashing stage, the pipeline proceeds directly to archive
building exactly when the pending-hash map is empty, and a remote request
(carrying the staged hashes) is issued exactly when at least one file was
staged. -/
theorem makeApiRequest_skips_iff_empty (pendingHashes : List (QStr × QStr)) :
    (ModrinthPackExportTask.makeApiRequest pendingHashes =
        ModrinthPackExportTask.ExportStep.buildArchive ↔ pendingHashes = []) ∧
      (pendingHashes ≠ [] →
        ModrinthPackExportTask.makeApiRequest pendingHashes =
          ModrinthPackExportTask.ExportStep.remoteRequest
            (pendingHashes.map (fun pr => pr.2))) := by
  constructor
  · cases pendingHashes with
    | nil => simp [ModrinthPackExportTask.makeApiRequest]
    | cons hd tl => simp [ModrinthPackExportTask.makeApiRequest]
  · intro hne
    cases pendingHashes with
    | nil => exact absurd rfl hne
    | cons hd tl => simp [ModrinthPackExportTask.makeApiRequest]

/-- C5, witness: a singleton pending map issues the remote request for its hash. -/
theorem makeApiRequest_skips_iff_empty_witness :
    (ModrinthPackExportTask.makeApiRequest [(qs "mods/b.jar", qs "H5")] =
        ModrinthPackExportTask.ExportStep.buildArchive ↔
          ([(qs "mods/b.jar", qs "H5")] : List (QStr × QStr)) = []) ∧
      ModrinthPackExportTask.makeApiRequest [(qs "mods/b.jar", qs "H5")] =
        ModrinthPackExportTask.ExportStep.remoteRequest [qs "H5"] :=
  ⟨(makeApiRequest_skips_iff_empty [(qs "mods/b.jar", qs "H5")]).1,
    (makeApiRequest_skips_iff_empty [(qs "mods/b.jar", qs "H5")]).2 (by decide)⟩

/- ----------------------------------------------------------------------------
ModrinthPackExportTask::parseApiResponse: the JSON response is modelled as an
association list from queried hash to the version object returned for it; each
version object carries its `files` array of records {hashes.sha1, hashes.sha512,
url, size}.
---------------------------------------------------------------------------- -/

/-- One record of a version object's `files` array. -/
structure ApiFileRecord : Type where
  sha1 : QStr
  sha512 : QStr
  url : QStr
  size : Int
deriving DecidableEq

/-- A version object of the response (`doc[hash].toObject()`), reduced to its
`files` array. -/
structure ApiVersion : Type where
  files : List ApiFileRecord
deriving DecidableEq

namespace ModrinthPackExportTask

/-- The record selected for one queried hash: the version object the response
binds to the hash (absent or empty object means none), searched with
`std::find_if` for a file whose `hashes.sha512` equals the queried hash. -/
def findMatch (response : List (QStr × ApiVersion)) (hash : QStr) :
    Option ApiFileRecord :=
  match mapLookup response hash with
  | none => none
  | some v => v.files.find? (fun f => decide (f.sha512 = hash))

/-- The body of the `while (iterator.hasNext())` loop of `parseApiResponse` for
one `(path, hash)` binding of `pendingHashes`: when a matching record exists,
`resolvedFiles[path]` is assigned a `ResolvedFile` built from the record's sha1
and url/size together with the queried hash; otherwise nothing happens. The side
of a remote-resolved file is the `ResolvedFile` default (universal). -/
def parseOne (response : List (QStr × ApiVersion))
    (resolved : List (QStr × ResolvedFile)) (pr : QStr × QStr) :
    List (QStr × ResolvedFile) :=
  match findMatch response pr.2 with
  | none => resolved
  | some f => mapInsert resolved pr.1 ⟨f.sha1, pr.2, f.url, f.size, ModSide.universalSide⟩

/-- `ModrinthPackExportTask::parseApiResponse` over a well-formed response:
iterate the pending map, merging every matched record into `resolvedFiles`. -/
def parseApiResponse (pendingHashes : List (QStr × QStr))
    (response : List (QStr × ApiVersion)) (resolved : List (QStr × ResolvedFile)) :
    List (QStr × ResolvedFile) :=
  pendingHashes.foldl (parseOne response) resolved

end ModrinthPackExportTask

/-- The arguments `ModrinthPackExportTask::buildZip` hands to the archive
writer: destination, the override path prefix, the collected file list, the
excluded files and the extra injected entries. -/
structure ZipPlan : Type where
  destination : QStr
  overrideRoot : QStr
  includedFiles : List QStr
  excludedFiles : List QStr
  extraFiles : List (QStr × QStr)
deriving DecidableEq

namespace ModrinthPackExportTask

/-- `ModrinthPackExportTask::buildZip`: build the archive task over the full
collected file list with the `"overrides/"` prefix, inject the generated index
as the extra entry `"modrinth.index.json"`, and exclude the keys of
`resolvedFiles` (`zipTask->setExcludeFiles(resolvedFiles.keys())`). -/
def buildZip (output : QStr) (files : List QStr)
    (resolvedFiles : List (QStr × ResolvedFile)) (indexJson : QStr) : ZipPlan :=
  { destination := output,
    overrideRoot := qs "overrides/",
    includedFiles := files,
    excludedFiles := mapKeys resolvedFiles,
    extraFiles := [(qs "modrinth.index.json", indexJson)] }

/-- Modelled from the spec: the override payload written by the archive writer
(`MMCZip::ExportToZipTask`, whose code is not under src/) — per spec §6, "a
zip-like container with an `overrides/` prefix for all plain files ... and
remote-resolved files excluded from the override payload": every included file
not listed as excluded, stored under the override prefix. -/
def overridePayload (z : ZipPlan) : List QStr :=
  (z.includedFiles.filter (fun f => !(decide (f ∈ z.excludedFiles)))).map
    (fun f => z.overrideRoot ++ f)

/-- Modelled from the spec: the full entry list of the written archive — the
extra injected entries (the manifest at its fixed top-level name) plus the
override payload. -/
def archiveEntries (z : ZipPlan) : List QStr :=
  z.extraFiles.map (fun pr => pr.1) ++ overridePayload z

end ModrinthPackExportTask

theorem parseApiResponse_not_contains (p : QStr) (response : List (QStr × ApiVersion)) :
    ∀ (pending : List (QStr × QStr)) (resolved : List (QStr × ResolvedFile)),
      (∀ h : QStr, (p, h) ∈ pending → ModrinthPackExportTask.findMatch response h = none) →
      mapContains resolved p = false →
      mapContains (ModrinthPackExportTask.parseApiResponse pending response resolved) p =
        false := by
  intro pending
  induction pending with
  | nil =>
      intro resolved _ hnc
      simpa [ModrinthPackExportTask.parseApiResponse] using hnc
  | cons pr tl ih =>
      intro resolved hall hnc
      obtain ⟨k, hsh⟩ := pr
      have htl : ∀ h : QStr, (p, h) ∈ tl → ModrinthPackExportTask.findMatch response h = none :=
        fun h hm => hall h (List.mem_cons_of_mem _ hm)
      have hstep :
          mapContains (ModrinthPackExportTask.parseOne response resolved (k, hsh)) p = false := by
        unfold ModrinthPackExportTask.parseOne
        cases hf : ModrinthPackExportTask.findMatch response hsh with
        | none => exact hnc
        | some f =>
            by_cases hp : k = p
            · subst hp
              exact absurd hf (by simp [hall hsh (List.mem_cons_self _ _)])
            · simp only [mapContains_insert, if_neg hp]
              exact hnc
      have hrec := ih (ModrinthPackExportTask.parseOne response resolved (k, hsh)) htl hstep
      simpa [ModrinthPackExportTask.parseApiResponse, List.foldl] using hrec

theorem parseApiResponse_all_unmatched (response : List (QStr × ApiVersion)) :
    ∀ (pending : List (QStr × QStr)) (resolved : List (QStr × ResolvedFile)),
      (∀ pr ∈ pending, ModrinthPackExportTask.findMatch response pr.2 = none) →
      ModrinthPackExportTask.parseApiResponse pending response resolved = resolved := by
  intro pending
  induction pending with
  | nil => intro resolved _; rfl
  | cons pr tl ih =>
      intro resolved hz
      have h1 : ModrinthPackExportTask.findMatch response pr.2 = none :=
        hz pr (List.mem_cons_self _ _)
      have h2 : ModrinthPackExportTask.parseOne response resolved pr = resolved := by
        unfold ModrinthPackExportTask.parseOne
        rw [h1]
      have htl : ∀ q ∈ tl, ModrinthPackExportTask.findMatch response q.2 = none :=
        fun q hm => hz q (List.mem_cons_of_mem _ hm)
      have hrec := ih resolved htl
      simpa [ModrinthPackExportTask.parseApiResponse, List.foldl, h2] using hrec

/-- C6: when parsing a successful remote-resolution response, a staged path `p`
whose queried hash has no matching record gains no resolved-file entry; when the
resolver returns zero matches the resolved-file table is left exactly as it was
(the export continues to `buildZip` rather than failing); and such an unmatched
file, if collected, is written into the archive as a plain override entry — it
is neither excluded nor dropped. -/
theorem parseApiResponse_unmatched_keeps_overrides (pending : List (QStr × QStr))
    (response : List (QStr × ApiVersion)) (resolved : List (QStr × ResolvedFile))
    (p output indexJson : QStr) (files : List QStr)
    (hall : ∀ h : QStr, (p, h) ∈ pending → ModrinthPackExportTask.findMatch response h = none)
    (hnc : mapContains resolved p = false) :
    mapContains (ModrinthPackExportTask.parseApiResponse pending response resolved) p =
        false ∧
      ((∀ pr ∈ pending, ModrinthPackExportTask.findMatch response pr.2 = none) →
        ModrinthPackExportTask.parseApiResponse pending response resolved = resolved) ∧
      (p ∈ files →
        (qs "overrides/" ++ p) ∈
          ModrinthPackExportTask.archiveEntries
            (ModrinthPackExportTask.buildZip output files
              (ModrinthPackExportTask.parseApiResponse pending response resolved)
              indexJson)) := by
  have h1 := parseApiResponse_not_contains p response pending resolved hall hnc
  refine ⟨h1, parseApiResponse_all_unmatched response pending resolved, ?_⟩
  intro hpf
  have hnk : p ∉ mapKeys (ModrinthPackExportTask.parseApiResponse pending response resolved) := by
    intro hk
    rw [(mapContains_iff_mem_keys _ p).2 hk] at h1
    cases h1
  refine List.mem_append.mpr (Or.inr ?_)
  unfold ModrinthPackExportTask.overridePayload
  refine List.mem_map.mpr ⟨p, ?_, rfl⟩
  refine List.mem_filter.mpr ⟨hpf, ?_⟩
  simp [ModrinthPackExportTask.buildZip, hnk]

/-- C6, witness: a concrete pending map whose only hash draws no match (the
response holds an unrelated version object), over a collected file list that
contains the staged file: the table is unchanged and the file stays an override. -/
theorem parseApiResponse_unmatched_keeps_overrides_witness :
    mapContains
        (ModrinthPackExportTask.parseApiResponse [(qs "mods/b.jar", qs "H5")]
          [(qs "Hx", ⟨[⟨qs "S1", qs "Hx", qs "u", 1⟩]⟩)] []) (qs "mods/b.jar") = false ∧
      ModrinthPackExportTask.parseApiResponse [(qs "mods/b.jar", qs "H5")]
          [(qs "Hx", ⟨[⟨qs "S1", qs "Hx", qs "u", 1⟩]⟩)] [] = [] ∧
      (qs "overrides/" ++ qs "mods/b.jar") ∈
        ModrinthPackExportTask.archiveEntries
          (ModrinthPackExportTask.buildZip (qs "out.mrpack") [qs "mods/b.jar"]
            (ModrinthPackExportTask.parseApiResponse [(qs "mods/b.jar", qs "H5")]
              [(qs "Hx", ⟨[⟨qs "S1", qs "Hx", qs "u", 1⟩]⟩)] [])
            (qs "{}")) := by
  obtain ⟨h1, h2, h3⟩ :=
    parseApiResponse_unmatched_keeps_overrides [(qs "mods/b.jar", qs "H5")]
      [(qs "Hx", ⟨[⟨qs "S1", qs "Hx", qs "u", 1⟩]⟩)] [] (qs "mods/b.jar")
      (qs "out.mrpack") (qs "{}") [qs "mods/b.jar"]
      (by intro h hm; simp at hm; rw [hm]; decide) (by decide)
  exact ⟨h1, h2 (by intro pr hm; simp at hm; rw [hm]; decide), h3 (by decide)⟩

/-- C9: the assembled archive is built over the full collected file list with
the `"overrides/"` prefix, the excluded files are exactly the keys of the
resolved-file table, the generated manifest is injected as an extra entry at the
fixed top-level name `"modrinth.index.json"`, and a collected file belongs to
the override payload (under the prefix) exactly when its relative path is not a
key of the resolved-file table. -/
theorem buildZip_layout (output indexJson : QStr) (files : List QStr)
    (resolvedFiles : List (QStr × ResolvedFile)) :
    (ModrinthPackExportTask.buildZip output files resolvedFiles indexJson).includedFiles =
        files ∧
      (ModrinthPackExportTask.buildZip output files resolvedFiles indexJson).overrideRoot =
        qs "overrides/" ∧
      (ModrinthPackExportTask.buildZip output files resolvedFiles indexJson).excludedFiles =
        mapKeys resolvedFiles ∧
      (qs "modrinth.index.json", indexJson) ∈
        (ModrinthPackExportTask.buildZip output files resolvedFiles indexJson).extraFiles ∧
      ∀ f ∈ files,
        (mapContains resolvedFiles f = false ↔
          (qs "overrides/" ++ f) ∈
            ModrinthPackExportTask.overridePayload
              (ModrinthPackExportTask.buildZip output files resolvedFiles indexJson)) := by
  refine ⟨rfl, rfl, rfl, List.mem_singleton.mpr rfl, ?_⟩
  intro f hf
  constructor
  · intro hnc
    have hnk : f ∉ mapKeys resolvedFiles := by
      intro hk
      rw [(mapContains_iff_mem_keys _ f).2 hk] at hnc
      cases hnc
    unfold ModrinthPackExportTask.overridePayload
    refine List.mem_map.mpr ⟨f, ?_, rfl⟩
    refine List.mem_filter.mpr ⟨hf, ?_⟩
    simp [ModrinthPackExportTask.buildZip, hnk]
  · intro hmem
    unfold ModrinthPackExportTask.overridePayload at hmem
    obtain ⟨g, hg, hgeq⟩ := List.mem_map.mp hmem
    have hfg : g = f := List.append_cancel_left hgeq
    subst hfg
    have hnk := (List.mem_filter.mp hg).2
    simp only [ModrinthPackExportTask.buildZip, Bool.not_eq_true', decide_eq_false_iff_not]
      at hnk
    by_cases hc : mapContains resolvedFiles g = true
    · exact absurd ((mapContains_iff_mem_keys _ g).1 hc) hnk
    · simpa using hc

/-- C9, witness: over two collected files of which one is resolved, the plan
keeps the full list, excludes exactly the resolved key, injects the manifest at
its fixed name, and only the unresolved file appears in the override payload. -/
theorem buildZip_layout_witness :
    (ModrinthPackExportTask.buildZip (qs "out.mrpack") [qs "mods/a.jar", qs "mods/b.jar"]
          [(qs "mods/a.jar", ⟨qs "S", qs "H", qs "u", 1, ModSide.universalSide⟩)]
          (qs "{}")).excludedFiles = [qs "mods/a.jar"] ∧
      (qs "overrides/" ++ qs "mods/b.jar") ∈
        ModrinthPackExportTask.overridePayload
          (ModrinthPackExportTask.buildZip (qs "out.mrpack")
            [qs "mods/a.jar", qs "mods/b.jar"]
            [(qs "mods/a.jar", ⟨qs "S", qs "H", qs "u", 1, ModSide.universalSide⟩)]
            (qs "{}")) := by
  obtain ⟨h1, h2, h3, h4, h5⟩ :=
    buildZip_layout (qs "out.mrpack") (qs "{}") [qs "mods/a.jar", qs "mods/b.jar"]
      [(qs "mods/a.jar", ⟨qs "S", qs "H", qs "u", 1, ModSide.universalSide⟩)]
  refine ⟨by rw [h3]; decide, ?_⟩
  exact (h5 (qs "mods/b.jar") (by decide)).mp (by decide)

/- ----------------------------------------------------------------------------
ModrinthPackExportTask::generateIndex, per-file entry construction:

    const QFileInfo pathInfo(path);
    if (optionalFiles && pathInfo.suffix() == "disabled") {
        path = pathInfo.dir().filePath(pathInfo.completeBaseName());
        env["client"] = "optional";
        env["server"] = "optional";
    } else {
        env["client"] = "required";
        env["server"] = "required";
    }
    if (iterator->side == Metadata::ModSide::ClientSide)
        env["server"] = "unsupported";

The Qt path helpers are modelled over character lists: `suffix()` is everything
after the last dot of the file name, `completeBaseName()` everything before it,
`dir().filePath(x)` rejoins the directory part with `x`.
---------------------------------------------------------------------------- -/

/-- Splits a character list at the last occurrence of `c`, returning the parts
before and after it, or `none` when `c` does not occur. -/
def splitAtLast (c : Char) : QStr → Option (QStr × QStr)
  | [] => none
  | x :: xs =>
      match splitAtLast c xs with
      | some (b, a) => some (x :: b, a)
      | none => if x = c then some ([], xs) else none

/-- `QFileInfo::fileName`: the part after the last path separator. -/
def fileNameOf (p : QStr) : QStr :=
  match splitAtLast '/' p with
  | some (_, f) => f
  | none => p

/-- `QFileInfo::dir().path()`: the part before the last path separator, `"."`
for a separator-free relative path. -/
def dirPathOf (p : QStr) : QStr :=
  match splitAtLast '/' p with
  | some (d, _) => d
  | none => qs "."

/-- `QFileInfo::suffix`: everything after the last dot of the file name, empty
when the file name has no dot. -/
def qSuffix (p : QStr) : QStr :=
  match splitAtLast '.' (fileNameOf p) with
  | some (_, s) => s
  | none => []

/-- `QFileInfo::completeBaseName`: the file name up to (excluding) its last
dot, or the whole file name when it has no dot. -/
def qCompleteBaseName (p : QStr) : QStr :=
  match splitAtLast '.' (fileNameOf p) with
  | some (b, _) => b
  | none => fileNameOf p

/-- `QDir::filePath`: joins a directory path and a file name with a separator
unless one is already present. -/
def qDirFilePath (d f : QStr) : QStr :=
  if d = [] then f
  else if d.getLast? = some '/' then d ++ f else d ++ '/' :: f

theorem splitAtLast_of_not_mem (c : Char) (s : QStr) (h : c ∉ s) :
    splitAtLast c s = none := by
  induction s with
  | nil => rfl
  | cons x xs ih =>
      have hx : ¬x = c := fun hc => h (hc ▸ List.mem_cons_self x xs)
      have hxs : c ∉ xs := fun hc => h (List.mem_cons_of_mem _ hc)
      simp [splitAtLast, ih hxs, hx]

theorem splitAtLast_append (c : Char) (b f : QStr) (h : c ∉ f) :
    splitAtLast c (b ++ c :: f) = some (b, f) := by
  induction b with
  | nil => simp [splitAtLast, splitAtLast_of_not_mem c f h]
  | cons x xs ih => simp [splitAtLast, ih]

theorem splitAtLast_eq_some (c : Char) :
    ∀ (s b a : QStr), splitAtLast c s = some (b, a) → s = b ++ c :: a := by
  intro s
  induction s with
  | nil => intro b a h; cases h
  | cons x xs ih =>
      intro b a h
      cases hsp : splitAtLast c xs with
      | some pr =>
          obtain ⟨bb, aa⟩ := pr
          rw [splitAtLast, hsp] at h
          have h2 : (x :: bb, aa) = (b, a) := Option.some.inj h
          have hb : b = x :: bb := (congrArg Prod.fst h2).symm
          have ha : a = aa := (congrArg Prod.snd h2).symm
          rw [hb, ha]
          simpa using ih bb aa hsp
      | none =>
          rw [splitAtLast, hsp] at h
          by_cases hx : x = c
          · rw [if_pos hx] at h
            cases h
            simp [hx]
          · rw [if_neg hx] at h
            cases h

/-- If the computed suffix of a path is `"disabled"`, the path ends in
`".disabled"`. -/
theorem isSuffix_disabled_of_qSuffix (q : QStr) (h : qSuffix q = qs "disabled") :
    List.IsSuffix (qs ".disabled") q := by
  have hfn : List.IsSuffix (fileNameOf q) q := by
    unfold fileNameOf
    cases hs : splitAtLast '/' q with
    | some pr =>
        obtain ⟨d, f⟩ := pr
        have := splitAtLast_eq_some '/' q d f hs
        exact ⟨d ++ ['/'], by simpa using this.symm⟩
    | none => exact ⟨[], by simp⟩
  unfold qSuffix at h
  cases hs : splitAtLast '.' (fileNameOf q) with
  | some pr =>
      obtain ⟨b, a⟩ := pr
      rw [hs] at h
      simp only [] at h
      have heq := splitAtLast_eq_some '.' (fileNameOf q) b a hs
      have hsub : List.IsSuffix (qs ".disabled") (fileNameOf q) := by
        refine ⟨b, ?_⟩
        rw [heq, h]
        rfl
      exact hsub.trans hfn
  | none =>
      rw [hs] at h
      simp only [] at h
      exact absurd h (by decide)

/-- One entry of the manifest's `files` array: path, environment block,
download list, hash block and size. -/
structure IndexFileEntry : Type where
  path : QStr
  envClient : QStr
  envServer : QStr
  downloads : List QStr
  hashSha1 : QStr
  hashSha512 : QStr
  fileSize : Int
deriving DecidableEq

namespace ModrinthPackExportTask

/-- The per-file body of the `for (auto iterator = resolvedFiles.constBegin(); ...)`
loop of `ModrinthPackExportTask::generateIndex`: strip the `.disabled` suffix
and mark both sides optional when optional-file handling is on and the suffix is
`"disabled"`, otherwise mark both sides required; then override the server side
to `"unsupported"` for a client-side-only file. -/
def indexEntryFor (optionalFiles : Bool) (path : QStr) (v : ResolvedFile) :
    IndexFileEntry :=
  let stripDisabled := optionalFiles = true ∧ qSuffix path = qs "disabled"
  let outPath :=
    if stripDisabled then qDirFilePath (dirPathOf path) (qCompleteBaseName path) else path
  let envClient := if stripDisabled then qs "optional" else qs "required"
  let baseServer := if stripDisabled then qs "optional" else qs "required"
  let envServer := if v.side = ModSide.clientSide then qs "unsupported" else baseServer
  { path := outPath, envClient := envClient, envServer := envServer,
    downloads := [v.url], hashSha1 := v.sha1, hashSha512 := v.sha512, fileSize := v.size }

/-- The `files` array of `ModrinthPackExportTask::generateIndex`: one entry per
binding of `resolvedFiles`. -/
def generateIndexFiles (optionalFiles : Bool)
    (resolvedFiles : List (QStr × ResolvedFile)) : List IndexFileEntry :=
  resolvedFiles.map (fun pr => indexEntryFor optionalFiles pr.1 pr.2)

end ModrinthPackExportTask

/-- C8: with optional-file handling enabled, a resolved file whose path ends in
`".disabled"` appears in the manifest with the suffix stripped and both sides
`"optional"`; a file not ending in `".disabled"` keeps its path with both sides
`"required"`; a client-side-only file gets `"unsupported"` on the server side;
and a server-side-only file is never marked `"unsupported"` on the client side. -/
theorem generateIndex_entry_env (d b q r1 r2 : QStr) (v wc ws : ResolvedFile)
    (hb : '/' ∉ b) (hd0 : d ≠ []) (hdl : d.getLast? ≠ some '/')
    (hside : v.side ≠ ModSide.clientSide)
    (hq : ¬List.IsSuffix (qs ".disabled") q)
    (hwc : wc.side = ModSide.clientSide) (hws : ws.side = ModSide.serverSide) :
    ModrinthPackExportTask.generateIndexFiles true [(d ++ '/' :: (b ++ qs ".disabled"), v)] =
        [{ path := d ++ '/' :: b, envClient := qs "optional", envServer := qs "optional",
           downloads := [v.url], hashSha1 := v.sha1, hashSha512 := v.sha512,
           fileSize := v.size }] ∧
      ModrinthPackExportTask.indexEntryFor true q v =
        { path := q, envClient := qs "required", envServer := qs "required",
          downloads := [v.url], hashSha1 := v.sha1, hashSha512 := v.sha512,
          fileSize := v.size } ∧
      (ModrinthPackExportTask.indexEntryFor true r1 wc).envServer = qs "unsupported" ∧
      (ModrinthPackExportTask.indexEntryFor true r2 ws).envClient ≠ qs "unsupported" := by
  have hdis : qs ".disabled" = '.' :: qs "disabled" := rfl
  have hnf : '/' ∉ b ++ qs ".disabled" := by
    intro hmem
    rcases List.mem_append.mp hmem with h1 | h1
    · exact hb h1
    · revert h1
      decide
  have hsl : splitAtLast '/' (d ++ '/' :: (b ++ qs ".disabled")) =
      some (d, b ++ qs ".disabled") := splitAtLast_append '/' d _ hnf
  have hfn : fileNameOf (d ++ '/' :: (b ++ qs ".disabled")) = b ++ qs ".disabled" := by
    unfold fileNameOf
    rw [hsl]
  have hsd : splitAtLast '.' (b ++ qs ".disabled") = some (b, qs "disabled") := by
    rw [hdis]
    exact splitAtLast_append '.' b (qs "disabled") (by decide)
  have hsuf : qSuffix (d ++ '/' :: (b ++ qs ".disabled")) = qs "disabled" := by
    unfold qSuffix
    rw [hfn, hsd]
  have hcbn : qCompleteBaseName (d ++ '/' :: (b ++ qs ".disabled")) = b := by
    unfold qCompleteBaseName
    rw [hfn, hsd]
  have hdp : dirPathOf (d ++ '/' :: (b ++ qs ".disabled")) = d := by
    unfold dirPathOf
    rw [hsl]
  have hjoin : qDirFilePath d b = d ++ '/' :: b := by
    unfold qDirFilePath
    rw [if_neg hd0, if_neg hdl]
  have hsufq : ¬qSuffix q = qs "disabled" := fun hh =>
    hq (isSuffix_disabled_of_qSuffix q hh)
  refine ⟨?_, ?_, ?_, ?_⟩
  · unfold ModrinthPackExportTask.generateIndexFiles
    simp [ModrinthPackExportTask.indexEntryFor, hsuf, hcbn, hdp, hjoin, hside]
  · simp [ModrinthPackExportTask.indexEntryFor, hsufq, hside]
  · simp [ModrinthPackExportTask.indexEntryFor, hwc]
  · unfold ModrinthPackExportTask.indexEntryFor
    by_cases hc : qSuffix r2 = qs "disabled"
    · simp [hc, hws]
      decide
    · simp [hc, hws]
      decide

/-- C8, witness: the environment/path rules applied to concrete manifest
entries (a disabled universal file, a plain file, a client-only file and a
server-only file). -/
theorem generateIndex_entry_env_witness :
    ModrinthPackExportTask.generateIndexFiles true
        [(qs "mods" ++ '/' :: (qs "a.jar" ++ qs ".disabled"),
          ⟨qs "S", qs "H", qs "u", 1, ModSide.universalSide⟩)] =
        [{ path := qs "mods" ++ '/' :: qs "a.jar", envClient := qs "optional",
           envServer := qs "optional", downloads := [qs "u"], hashSha1 := qs "S",
           hashSha512 := qs "H", fileSize := 1 }] ∧
      ModrinthPackExportTask.indexEntryFor true (qs "mods/plain.jar")
          ⟨qs "S", qs "H", qs "u", 1, ModSide.universalSide⟩ =
        { path := qs "mods/plain.jar", envClient := qs "required",
          envServer := qs "required", downloads := [qs "u"], hashSha1 := qs "S",
          hashSha512 := qs "H", fileSize := 1 } ∧
      (ModrinthPackExportTask.indexEntryFor true (qs "mods/x.jar")
          ⟨qs "S", qs "H", qs "u", 1, ModSide.clientSide⟩).envServer = qs "unsupported" ∧
      (ModrinthPackExportTask.indexEntryFor true (qs "mods/y.jar")
          ⟨qs "S", qs "H", qs "u", 1, ModSide.serverSide⟩).envClient ≠ qs "unsupported" :=
  generateIndex_entry_env (qs "mods") (qs "a.jar") (qs "mods/plain.jar")
    (qs "mods/x.jar") (qs "mods/y.jar")
    ⟨qs "S", qs "H", qs "u", 1, ModSide.universalSide⟩
    ⟨qs "S", qs "H", qs "u", 1, ModSide.clientSide⟩
    ⟨qs "S", qs "H", qs "u", 1, ModSide.serverSide⟩
    (by decide) (by decide) (by decide) (by decide) (by decide) rfl rfl

/-- C10, counterexample: with optional-file handling disabled, a resolved
`.disabled` file whose metadata declares it client-side-only has its server
environment set to `"unsupported"`, not `"required"` — refuting "its environment
block still marks both client and server as required". -/
theorem indexEntryFor_disabled_client_cex :
    (ModrinthPackExportTask.indexEntryFor false (qs "mods/a.jar.disabled")
          ⟨qs "S", qs "H", qs "u", 1, ModSide.clientSide⟩).envServer = qs "unsupported" ∧
      (ModrinthPackExportTask.indexEntryFor false (qs "mods/a.jar.disabled")
          ⟨qs "S", qs "H", qs "u", 1, ModSide.clientSide⟩).envServer ≠ qs "required" := by
  constructor
  · rfl
  · decide

/-- C10, amended: with optional-file handling disabled, a resolved file — in
particular one whose path ends in `".disabled"` — keeps its path unchanged (the
suffix is never stripped), its client environment is `"required"`, its server
environment is `"required"` unless the file is declared client-side-only (in
which case it is `"unsupported"`), and neither side is ever marked
`"optional"`. -/
theorem indexEntryFor_not_optional (q : QStr) (v : ResolvedFile) :
    (ModrinthPackExportTask.indexEntryFor false q v).path = q ∧
      (ModrinthPackExportTask.indexEntryFor false q v).envClient = qs "required" ∧
      (v.side ≠ ModSide.clientSide →
        (ModrinthPackExportTask.indexEntryFor false q v).envServer = qs "required") ∧
      (ModrinthPackExportTask.indexEntryFor false q v).envServer ≠ qs "optional" ∧
      (ModrinthPackExportTask.indexEntryFor false q v).envClient ≠ qs "optional" := by
  refine ⟨rfl, rfl, ?_, ?_, ?_⟩
  · intro hside
    simp [ModrinthPackExportTask.indexEntryFor, hside]
  · unfold ModrinthPackExportTask.indexEntryFor
    by_cases hc : v.side = ModSide.clientSide
    · simp [hc]
      decide
    · simp [hc]
      decide
  · have h : (ModrinthPackExportTask.indexEntryFor false q v).envClient = qs "required" :=
      rfl
    rw [h]
    decide

/-- C10, witness: a concrete universal-side `.disabled` file with optional-file
handling disabled keeps its suffix and is required on both sides. -/
theorem indexEntryFor_not_optional_witness :
    (ModrinthPackExportTask.indexEntryFor false (qs "mods/a.jar.disabled")
          ⟨qs "S", qs "H", qs "u", 1, ModSide.universalSide⟩).path =
        qs "mods/a.jar.disabled" ∧
      (ModrinthPackExportTask.indexEntryFor false (qs "mods/a.jar.disabled")
          ⟨qs "S", qs "H", qs "u", 1, ModSide.universalSide⟩).envServer = qs "required" := by
  obtain ⟨h1, h2, h3, h4, h5⟩ :=
    indexEntryFor_not_optional (qs "mods/a.jar.disabled")
      ⟨qs "S", qs "H", qs "u", 1, ModSide.universalSide⟩
  exact ⟨h1, h3 (by decide)⟩
